import Mathlib

/-!
Verification development for the notmuch mail-archive MCP server
(`main.py`): the patch classifier `is_patch`, the thread walker
`walk_replies` / `retrieve_thread`, the MIME body extractor
`get_email_body`, and the series finder `do_find_threads`.

Strings are modelled as `List Char`; Python's byte strings as `List Nat`.
External collaborators (the notmuch index, the Python `email` parser and
codec registry) are modelled by explicit data: a notmuch message is a tree
of header records, a parsed e-mail is a MIME tree, gateway failures are an
`Except` layer.
-/

/- ### Python string primitives -/

/-- Whitespace as used by Python's `str.strip()` and the regex class
between brackets (ASCII part): space, tab, newline, carriage return,
vertical tab, form feed. -/
def pyIsSpace (c : Char) : Bool :=
  c = ' ' || c = '\t' || c = '\n' || c = '\r' || c = Char.ofNat 11 || c = Char.ofNat 12

/-- Python `s.strip()`: drop leading and trailing whitespace. -/
def pyStrip (s : List Char) : List Char :=
  ((s.dropWhile pyIsSpace).reverse.dropWhile pyIsSpace).reverse

/-- Characters stripped by `s.strip('<>')`. -/
def isAngle (c : Char) : Bool :=
  c = '<' || c = '>'

/-- Python `s.strip('<>')`: drop every leading and trailing `<` or `>`. -/
def stripAngles (s : List Char) : List Char :=
  ((s.dropWhile isAngle).reverse.dropWhile isAngle).reverse

/-- Python's substring test `needle in hay`. -/
def strContains : List Char → List Char → Bool
  | hay, needle =>
    needle.isPrefixOf hay ||
      match hay with
      | [] => false
      | _ :: t => strContains t needle

/- ### The two regexes of the patch classifier

`is_patch` uses `re.match` on the pattern matching a reply-marker subject,
and `re.search` on the anchored pattern for a leading bracketed PATCH tag,
both with `re.IGNORECASE`. -/

/-- Model of `re.match(r'^\s*(re?|aw|fwd?):', subject, re.IGNORECASE)`:
after optional leading whitespace the subject starts, case-insensitively,
with one of `r:`, `re:`, `aw:`, `fw:`, `fwd:`. -/
def isReply (subject : List Char) : Bool :=
  let t := (subject.dropWhile pyIsSpace).map Char.toLower
  List.isPrefixOf ['r', 'e', ':'] t || List.isPrefixOf ['r', ':'] t ||
    List.isPrefixOf ['a', 'w', ':'] t || List.isPrefixOf ['f', 'w', 'd', ':'] t ||
    List.isPrefixOf ['f', 'w', ':'] t

/-- Does the string start, case-insensitively, with the literal `PATCH`? -/
def matchesPatchCI (s : List Char) : Bool :=
  (s.take 5).map Char.toLower = ['p', 'a', 't', 'c', 'h']

/-- Model of the regex fragment `.*?\]` (no DOTALL: `.` excludes newline):
a `]` occurs before any newline. -/
def findCloseNoNl : List Char → Bool
  | [] => false
  | c :: rest =>
    if c = ']' then true
    else if c = '\n' then false
    else findCloseNoNl rest

/-- Model of the regex fragment `.*?PATCH.*?\]` with `re.IGNORECASE` and no
DOTALL: `PATCH` occurs case-insensitively, with no newline before it, and a
`]` follows it before any newline. -/
def tagBody : List Char → Bool
  | [] => false
  | c :: rest =>
    (matchesPatchCI (c :: rest) && findCloseNoNl ((c :: rest).drop 5)) ||
      (!(c = '\n') && tagBody rest)

/-- Model of `re.search(r'^\s*\[.*?PATCH.*?\]', subject, re.IGNORECASE)`:
after optional leading whitespace the subject starts with `[`, and within
the same line `PATCH` (case-insensitive) followed by `]` occur. -/
def hasPatchTag (subject : List Char) : Bool :=
  match subject.dropWhile pyIsSpace with
  | [] => false
  | c :: rest => c = '[' && tagBody rest

/- ### Notmuch messages and the patch classifier

A notmuch message is modelled by its consumed headers plus the reply
subtree handed out by `message.replies()`.  A `none` header models a
header whose lookup raises `LookupError` in the bindings. -/

inductive MsgTree where
  | node (messageid : String) (in_reply_to : Option String)
      (subject : Option String) (replies : List MsgTree)

def MsgTree.messageid : MsgTree → String
  | .node mid _ _ _ => mid

def MsgTree.in_reply_to : MsgTree → Option String
  | .node _ irt _ _ => irt

def MsgTree.subject : MsgTree → Option String
  | .node _ _ s _ => s

def MsgTree.replies : MsgTree → List MsgTree
  | .node _ _ _ rs => rs

/-- Model of `get_header`: return the header value, or the empty string
when the underlying lookup raises `LookupError` (absent header). -/
def get_header (message : MsgTree) (header_name : String) : String :=
  if header_name = "in-reply-to" then message.in_reply_to.getD ""
  else if header_name = "subject" then message.subject.getD ""
  else ""

/-- Model of `is_patch(message, toplevel_message_id)`: the In-Reply-To
header, stripped of whitespace and then of angle brackets, must equal the
top-level message id; the subject must not match the reply-marker regex;
and the subject must match the bracketed-PATCH regex. -/
def is_patch (message : MsgTree) (toplevel_message_id : String) : Bool :=
  let in_reply_to := stripAngles (pyStrip (get_header message "in-reply-to").toList)
  if in_reply_to ≠ toplevel_message_id.toList then false
  else
    let subject := (get_header message "subject").toList
    if isReply subject then false
    else hasPatchTag subject

/- ### Thread walker -/

/-- The filter argument of `walk_replies`: `None`, or a predicate on
(reply, parent message). -/
def includeIt (filter_func : Option (MsgTree → MsgTree → Bool)) (r p : MsgTree) : Bool :=
  match filter_func with
  | none => true
  | some g => g r p

/-- The loop of `walk_replies` over a list of replies of `parent`: append
each reply that passes the filter (or every reply when the filter is
`None`), and always recurse into the reply's own replies. -/
def walkL (filter_func : Option (MsgTree → MsgTree → Bool)) (parent : MsgTree) :
    List MsgTree → List MsgTree
  | [] => []
  | .node mid irt subj rs :: rest =>
    (if includeIt filter_func (.node mid irt subj rs) parent then [MsgTree.node mid irt subj rs]
     else [])
      ++ walkL filter_func (.node mid irt subj rs) rs
      ++ walkL filter_func parent rest

/-- Model of `walk_replies(message, filter_func)`. -/
def walk_replies (message : MsgTree) (filter_func : Option (MsgTree → MsgTree → Bool)) :
    List MsgTree :=
  walkL filter_func message message.replies

/-- Number of messages in a forest of reply trees (the messages reachable
from the top level via `replies`). -/
def treeSizeL : List MsgTree → Nat
  | [] => 0
  | .node _ _ _ rs :: rest => 1 + treeSizeL rs + treeSizeL rest

/-- Model of `retrieve_thread(db, thread_id, all_messages)`.  The gateway
interaction `db.threads` / `next(iter(threads), None)` is modelled by its
outcome: an exception inside the `try` block (`.error`), no matching
thread (`.ok none`), or the thread's list of top-level messages
(`.ok (some toplevels)`).  Every top-level message is included, followed
by its walked replies: all of them when `all_messages` is true, otherwise
those passing `is_patch` against this top-level message's id. -/
def retrieve_thread (gw : Except String (Option (List MsgTree))) (all_messages : Bool) :
    List MsgTree :=
  match gw with
  | .error _ => []
  | .ok none => []
  | .ok (some toplevels) =>
    toplevels.flatMap fun toplevel_message =>
      toplevel_message ::
        walk_replies toplevel_message
          (if all_messages then none
           else some fun reply_message _ => is_patch reply_message toplevel_message.messageid)

/-- Model of `do_show_thread`'s rendering of the retrieved messages:
`'\n'.join(get_message_info(msg) for msg in messages)`, with the
per-message formatting abstracted as `fmt`. -/
def do_show_thread (gw : Except String (Option (List MsgTree))) (all_messages : Bool)
    (fmt : MsgTree → String) : String :=
  String.intercalate "\n" ((retrieve_thread gw all_messages).map fmt)

/- ### MIME messages and the body extractor

A parsed e-mail (`email.message.Message`) is modelled by its MIME tree.
For a leaf, `payload` is the result of `get_payload(decode=True)`:
`none` when Python would return `None` (absent payload), otherwise the
transfer-decoded bytes.  `charset` is the result of
`get_content_charset()`; `ctype` that of `get_content_type()`; `cdisp`
the raw `Content-Disposition` header, defaulted to the empty string. -/

inductive EMsg where
  | part (ctype : String) (cdisp : String) (charset : Option String) (payload : Option (List Nat))
  | multi (ctype : String) (cdisp : String) (parts : List EMsg)

def EMsg.is_multipart : EMsg → Bool
  | .part _ _ _ _ => false
  | .multi _ _ _ => true

def EMsg.ctype : EMsg → String
  | .part ct _ _ _ => ct
  | .multi ct _ _ => ct

def EMsg.cdisp : EMsg → String
  | .part _ cd _ _ => cd
  | .multi _ cd _ => cd

/-- Exceptions `get_email_body` can propagate. -/
inductive PyExn where
  | attributeError
  | lookupError
  | indexError
deriving DecidableEq, Repr

/-- Python's replacement character U+FFFD. -/
def replChar : Char := Char.ofNat 0xFFFD

def isCont (b : Nat) : Bool := 0x80 ≤ b && b ≤ 0xBF

/-- One step of UTF-8 decoding with replacement: given the lead byte and
the remaining bytes, the decoded character and how many of the remaining
bytes the sequence consumed (0 on a malformed sequence: only the lead
byte is replaced). -/
def utf8Step (b : Nat) (rest : List Nat) : Char × Nat :=
  if b < 0x80 then (Char.ofNat b, 0)
  else if 0xC2 ≤ b && b ≤ 0xDF then
    match rest with
    | b2 :: _ =>
      if isCont b2 then (Char.ofNat ((b - 0xC0) * 64 + (b2 - 0x80)), 1) else (replChar, 0)
    | [] => (replChar, 0)
  else if 0xE0 ≤ b && b ≤ 0xEF then
    match rest with
    | b2 :: b3 :: _ =>
      if (isCont b2 && isCont b3) && (!(b = 0xE0) || 0xA0 ≤ b2) && (!(b = 0xED) || b2 ≤ 0x9F) then
        (Char.ofNat ((b - 0xE0) * 4096 + (b2 - 0x80) * 64 + (b3 - 0x80)), 2)
      else (replChar, 0)
    | _ => (replChar, 0)
  else if 0xF0 ≤ b && b ≤ 0xF4 then
    match rest with
    | b2 :: b3 :: b4 :: _ =>
      if (isCont b2 && isCont b3 && isCont b4)
          && (!(b = 0xF0) || 0x90 ≤ b2) && (!(b = 0xF4) || b2 ≤ 0x8F) then
        (Char.ofNat ((b - 0xF0) * 262144 + (b2 - 0x80) * 4096 + (b3 - 0x80) * 64 + (b4 - 0x80)), 3)
      else (replChar, 0)
    | _ => (replChar, 0)
  else (replChar, 0)

/-- Model of `bytes.decode('utf-8', errors='replace')`: standard UTF-8
decoding, substituting U+FFFD for malformed sequences. -/
def utf8Replace : List Nat → List Char
  | [] => []
  | b :: rest =>
    (utf8Step b rest).1 :: utf8Replace (rest.drop (utf8Step b rest).2)
termination_by l => l.length
decreasing_by
  simp [List.length_cons, List.length_drop]
  omega

/-- Model of `bytes.decode('ascii', errors='replace')`. -/
def asciiReplace (bs : List Nat) : List Char :=
  bs.map fun b => if b < 0x80 then Char.ofNat b else replChar

/-- Model of `bytes.decode('latin-1', errors='replace')` (every byte maps
to the code point of the same value). -/
def latin1Decode (bs : List Nat) : List Char :=
  bs.map Char.ofNat

/-- Model of the Python codec registry lookup performed by
`bytes.decode(charset, errors='replace')`: `errors='replace'` only
governs undecodable bytes; an unregistered codec NAME still raises
`LookupError`.  The registry is modelled by the charsets commonly
declared in mail (names as lower-cased by `get_content_charset`); any
other name, e.g. the frequent real-world label `unknown-8bit`, is not a
registered codec. -/
def codecOf (cs : String) : Option (List Nat → List Char) :=
  if cs = "utf-8" || cs = "utf8" then some utf8Replace
  else if cs = "us-ascii" || cs = "ascii" then some asciiReplace
  else if cs = "latin-1" || cs = "iso-8859-1" || cs = "latin1" || cs = "iso8859-1" then
    some latin1Decode
  else none

def knownCharset (cs : String) : Bool := (codecOf cs).isSome

/-- Model of `msg.get_payload(decode=True)`: `None` for a multipart
message, otherwise the (possibly absent) transfer-decoded payload. -/
def payloadDecode : EMsg → Option (List Nat)
  | .part _ _ _ pl => pl
  | .multi _ _ _ => none

/-- Model of `msg.get_content_charset() or "utf-8"` (Python `or`: both
`None` and the empty string fall back to utf-8). -/
def effectiveCharset : EMsg → String
  | .part _ _ cs _ =>
    match cs with
    | none => "utf-8"
    | some c => if c = "" then "utf-8" else c
  | .multi _ _ _ => "utf-8"

/-- Model of `p.get_payload(decode=True).decode(charset, errors="replace")`:
an absent payload makes `get_payload` return `None`, and `None.decode`
raises `AttributeError`; an unregistered charset raises `LookupError`;
otherwise the bytes decode with replacement and cannot fail. -/
def decodeStep (p : EMsg) : Except PyExn (List Char) :=
  match payloadDecode p with
  | none => .error .attributeError
  | some bs =>
    match codecOf (effectiveCharset p) with
    | none => .error .lookupError
    | some dec => .ok (dec bs)

/-- Model of `msg.walk()`: the message itself, then every subpart,
depth-first. -/
def walkEL : List EMsg → List EMsg
  | [] => []
  | .part ct cd cs pl :: rest => .part ct cd cs pl :: walkEL rest
  | .multi ct cd parts :: rest => .multi ct cd parts :: (walkEL parts ++ walkEL rest)

def walkE (m : EMsg) : List EMsg :=
  match m with
  | .part ct cd cs pl => [.part ct cd cs pl]
  | .multi ct cd parts => .multi ct cd parts :: walkEL parts

/-- The selection test of the body extractor's loop: content type exactly
`text/plain` and `"attachment" not in content_disposition`. -/
def qualPlain (p : EMsg) : Bool :=
  p.ctype = "text/plain" && !strContains p.cdisp.toList ['a','t','t','a','c','h','m','e','n','t']

/-- First element of the walk passing `qualPlain`, in walk order. -/
def firstPlain : List EMsg → Option EMsg
  | [] => none
  | p :: rest => if qualPlain p then some p else firstPlain rest

/-- Model of `get_email_body(msg)`.  Multipart: scan `msg.walk()` for the
first `text/plain` non-attachment part and decode it; if none, fall back
to `msg.get_payload(0)` (which raises `IndexError` when there is no
subpart).  Non-multipart: decode the single payload. -/
def get_email_body : EMsg → Except PyExn (List Char)
  | .part ct cd cs pl => decodeStep (.part ct cd cs pl)
  | .multi ct cd parts =>
    match firstPlain (walkE (.multi ct cd parts)) with
    | some p => decodeStep p
    | none =>
      match parts with
      | first_part :: _ => decodeStep first_part
      | [] => .error .indexError

/- ### Series finder -/

/-- A message as consumed by `do_find_threads`: its thread id and the
result of `message.header('subject')` (`none` models the `LookupError`
of an absent header, which here is NOT caught locally). -/
structure FMsg where
  threadid : String
  subjectHdr : Option String
deriving DecidableEq, Repr

/-- Error conditions of `do_find_threads`: `ValueError` for an empty
filter, `RuntimeError` wrapping any gateway/database failure. -/
inductive FindErr where
  | valueError
  | runtimeError
deriving DecidableEq, Repr

/-- The qualification test of `do_find_threads`:
`"PATCH" in subject.upper()` and not
`any(subject.upper().startswith(p) for p in ["RE:", "R:"])`. -/
def qualifies (subject : String) : Bool :=
  let u := subject.toList.map Char.toUpper
  strContains u ['P','A','T','C','H'] &&
    !(List.isPrefixOf ['R','E',':'] u || List.isPrefixOf ['R',':'] u)

/-- Model of `thread.subject or subject`: the thread lookup
(`next(iter(db.threads(...)))`) either finds the thread and yields its
subject (empty string falls back to the message subject, Python `or`),
or raises `StopIteration` (`none`), also falling back. -/
def emitSubject (lookup : String → Option String) (m : FMsg) (subject : String) : String :=
  match lookup m.threadid with
  | some tsubj => if tsubj = "" then subject else tsubj
  | none => subject

/-- The message loop of `do_find_threads`: skip threads already in
`seen`; read the subject header (an absent header raises, and the
exception is wrapped into `RuntimeError` by the outer handler, discarding
all accumulated records); emit a record and mark the thread seen only for
qualifying messages. -/
def findLoop (lookup : String → Option String) (seen : List String) :
    List FMsg → Except FindErr (List (String × String))
  | [] => .ok []
  | m :: rest =>
    if m.threadid ∈ seen then findLoop lookup seen rest
    else
      match m.subjectHdr with
      | none => .error .runtimeError
      | some subject =>
        if qualifies subject then
          match findLoop lookup (m.threadid :: seen) rest with
          | .error e => .error e
          | .ok res => .ok ((m.threadid, emitSubject lookup m subject) :: res)
        else findLoop lookup seen rest

/-- Model of `do_find_threads(notmuch_filter)`: an empty or
whitespace-only filter raises `ValueError` before the database is
touched; a gateway failure (opening the database or streaming the
matches) is wrapped into `RuntimeError`; otherwise the message stream is
folded by `findLoop`. -/
def do_find_threads (notmuch_filter : String) (gw : Except Unit (List FMsg))
    (lookup : String → Option String) : Except FindErr (List (String × String)) :=
  if pyStrip notmuch_filter.toList = [] then .error .valueError
  else
    match gw with
    | .error _ => .error .runtimeError
    | .ok messages => findLoop lookup [] messages

/- ### Further definitions used by the claims -/

/-- Modelled from the spec's words in §4.3 rule 3, for comparison with the
code's anchored regex: the subject CONTAINS, anywhere, a bracketed tag
(an opening bracket with a matching closing bracket) whose content
includes the marker `PATCH` case-insensitively. -/
def containsBracketedPatchTag : List Char → Bool
  | [] => false
  | c :: rest =>
    (c = '[' && decide (']' ∈ rest) &&
        strContains ((rest.takeWhile fun x => !(x = ']')).map Char.toLower)
          ['p', 'a', 't', 'c', 'h'])
      || containsBracketedPatchTag rest

/-- A MIME node is locally well formed: a leaf carries a present payload
and a charset registered in the codec registry; a container does not pass
the `text/plain` selection test and its first subpart exists and is a
leaf. -/
def nodeOK : EMsg → Bool
  | .part ct cd cs pl =>
    pl.isSome && knownCharset (effectiveCharset (.part ct cd cs pl))
  | .multi ct cd parts =>
    !qualPlain (.multi ct cd parts) &&
      (match parts with
       | [] => false
       | fp :: _ => !fp.is_multipart)

/-- A MIME message all of whose parts (in `walk` order) are locally well
formed. -/
def wfMime (m : EMsg) : Bool := (walkE m).all nodeOK

/-- The qualification test applied to a message record. -/
def qualifiesMsg (m : FMsg) : Bool := qualifies (m.subjectHdr.getD "")

/-- Keep the first record for each thread id (the spec's description of
the dedup behaviour, written as filter-then-dedup instead of the code's
interleaved seen-set). -/
def dedupByTid (seen : List String) : List FMsg → List FMsg
  | [] => []
  | m :: rest =>
    if m.threadid ∈ seen then dedupByTid seen rest
    else m :: dedupByTid (m.threadid :: seen) rest

/- ### Concrete fixtures used by witnesses and counterexamples -/

/-- A patch at depth two of the reply tree: its parent is a plain review
reply (not itself a patch), but its In-Reply-To still names the cover. -/
def exR2 : MsgTree := .node "r2" (some "<cover>") (some "[PATCH 2/2] fix") []

/-- A review reply directly under the cover, with the depth-two patch
`exR2` below it. -/
def exR1 : MsgTree := .node "r1" (some "cover") (some "Some review comments") [exR2]

/-- A cover letter with one review reply that hides a patch below it. -/
def exCover : MsgTree := .node "cover" none (some "[PATCH 0/2] series") [exR1]

/-- A `text/plain` part marked as an attachment, with payload `SEC`. -/
def exAttachment : EMsg :=
  .part "text/plain" "attachment; filename=a.log" (some "utf-8") (some [83, 69, 67])

/-- A `text/plain` body part, with payload `keep`. -/
def exBodyPart : EMsg := .part "text/plain" "" (some "utf-8") (some [107, 101, 101, 112])

/-- A multipart message whose FIRST part is the attachment and whose
second part is the real body. -/
def exMulti : EMsg := .multi "multipart/mixed" "" [exAttachment, exBodyPart]

/- ### Helper lemmas: strings and scanning -/

theorem dropWhile_append_of_forall {p : Char → Bool} (ws l : List Char)
    (h : ∀ x ∈ ws, p x = true) :
    (ws ++ l).dropWhile p = l.dropWhile p := by
  induction ws with
  | nil => rfl
  | cons w ws ih =>
    rw [List.cons_append, List.dropWhile_cons]
    simp [h w (by simp)]
    exact ih fun x hx => h x (by simp [hx])

theorem findCloseNoNl_iff (s : List Char) :
    findCloseNoNl s = true ↔ ∃ b c, s = b ++ ']' :: c ∧ ∀ x ∈ b, x ≠ '\n' := by
  induction s with
  | nil =>
    constructor
    · intro h; simp [findCloseNoNl] at h
    · rintro ⟨b, c, h, -⟩
      cases b <;> simp at h
  | cons x t ih =>
    by_cases hx : x = ']'
    · subst hx
      constructor
      · intro _
        exact ⟨[], t, rfl, by simp⟩
      · intro _
        simp [findCloseNoNl]
    · by_cases hn : x = '\n'
      · subst hn
        constructor
        · intro h; simp [findCloseNoNl] at h
        · rintro ⟨b, c, hbc, hb⟩
          cases b with
          | nil => simp at hbc
          | cons y b' =>
            simp only [List.cons_append, List.cons.injEq] at hbc
            exact absurd hbc.1.symm (hb y (by simp))
      · constructor
        · intro h
          rw [findCloseNoNl] at h
          simp [hx, hn] at h
          obtain ⟨b, c, hbc, hb⟩ := ih.mp h
          refine ⟨x :: b, c, by simp [hbc], ?_⟩
          intro y hy
          rcases List.mem_cons.mp hy with rfl | hy
          · exact hn
          · exact hb y hy
        · rintro ⟨b, c, hbc, hb⟩
          cases b with
          | nil =>
            simp only [List.nil_append, List.cons.injEq] at hbc
            exact absurd hbc.1 hx
          | cons y b' =>
            simp only [List.cons_append, List.cons.injEq] at hbc
            obtain ⟨rfl, ht⟩ := hbc
            have : findCloseNoNl t = true :=
              ih.mpr ⟨b', c, ht, fun z hz => hb z (by simp [hz])⟩
            rw [findCloseNoNl]
            simp [hx, hn, this]

theorem tagBody_iff (s : List Char) :
    tagBody s = true ↔
      ∃ a p b c, s = a ++ p ++ b ++ ']' :: c ∧ (∀ x ∈ a, x ≠ '\n') ∧ (∀ x ∈ b, x ≠ '\n') ∧
        p.map Char.toLower = ['p', 'a', 't', 'c', 'h'] := by
  induction s with
  | nil =>
    constructor
    · intro h; simp [tagBody] at h
    · rintro ⟨a, p, b, c, hs, -, -, hp⟩
      have hplen : p.length = 5 := by simpa using congrArg List.length hp
      have hlen := congrArg List.length hs
      simp [List.length_append, hplen] at hlen
      omega
  | cons x t ih =>
    constructor
    · intro h
      simp only [tagBody, Bool.or_eq_true, Bool.and_eq_true] at h
      rcases h with ⟨hm, hf⟩ | ⟨hx, ht⟩
      · simp only [matchesPatchCI, decide_eq_true_eq] at hm
        obtain ⟨b, c, hbc, hb⟩ := (findCloseNoNl_iff _).mp hf
        refine ⟨[], (x :: t).take 5, b, c, ?_, by simp, hb, hm⟩
        conv_lhs => rw [← List.take_append_drop 5 (x :: t)]
        simp only [List.drop_succ_cons] at hbc
        simp [List.append_assoc, hbc]
      · obtain ⟨a, p, b, c, hs, ha, hb, hp⟩ := ih.mp ht
        refine ⟨x :: a, p, b, c, by simp [hs], ?_, hb, hp⟩
        intro y hy
        rcases List.mem_cons.mp hy with rfl | hy
        · simpa using hx
        · exact ha y hy
    · rintro ⟨a, p, b, c, hs, ha, hb, hp⟩
      have hplen : p.length = 5 := by simpa using congrArg List.length hp
      rw [tagBody]
      cases a with
      | nil =>
        simp only [List.nil_append] at hs
        have htake : (x :: t).take 5 = p := by
          rw [hs, List.append_assoc, List.take_left' hplen]
        have h1 : matchesPatchCI (x :: t) = true := by
          simp [matchesPatchCI, htake, hp]
        have hdrop : List.drop 4 t = b ++ ']' :: c := by
          have h5 : List.drop 5 (x :: t) = b ++ ']' :: c := by
            rw [hs, List.append_assoc, List.drop_left' hplen]
          simpa using h5
        have h2 : findCloseNoNl (List.drop 4 t) = true := by
          rw [hdrop]
          exact (findCloseNoNl_iff _).mpr ⟨b, c, rfl, hb⟩
        simp [h1, h2]
      | cons y a' =>
        simp only [List.cons_append, List.cons.injEq] at hs
        obtain ⟨rfl, ht⟩ := hs
        have hx : ¬(x = '\n') := ha x (by simp)
        have : tagBody t = true :=
          ih.mpr ⟨a', p, b, c, ht, fun z hz => ha z (by simp [hz]), hb, hp⟩
        simp [hx, this]

theorem hasPatchTag_iff (s : List Char) :
    hasPatchTag s = true ↔
      ∃ ws a p b c, s = ws ++ '[' :: (a ++ p ++ b ++ ']' :: c) ∧
        (∀ x ∈ ws, pyIsSpace x = true) ∧ (∀ x ∈ a, x ≠ '\n') ∧ (∀ x ∈ b, x ≠ '\n') ∧
        p.map Char.toLower = ['p', 'a', 't', 'c', 'h'] := by
  constructor
  · intro h
    rw [hasPatchTag] at h
    cases hd : s.dropWhile pyIsSpace with
    | nil => rw [hd] at h; simp at h
    | cons c0 rest =>
      rw [hd] at h
      simp only [Bool.and_eq_true, decide_eq_true_eq] at h
      obtain ⟨rfl, htb⟩ := h
      obtain ⟨a, p, b, cc, h1, ha, hb, hp⟩ := (tagBody_iff rest).mp htb
      refine ⟨s.takeWhile pyIsSpace, a, p, b, cc, ?_, ?_, ha, hb, hp⟩
      · conv_lhs => rw [← List.takeWhile_append_dropWhile pyIsSpace s]
        rw [hd, h1]
      · intro x hx; exact List.mem_takeWhile_imp hx
  · rintro ⟨ws, a, p, b, c, hs, hws, ha, hb, hp⟩
    have hd : s.dropWhile pyIsSpace = '[' :: (a ++ p ++ b ++ ']' :: c) := by
      rw [hs, dropWhile_append_of_forall ws _ hws, List.dropWhile_cons]
      simp [show pyIsSpace '[' = false from rfl]
    rw [hasPatchTag, hd]
    have h : tagBody (a ++ p ++ b ++ ']' :: c) = true :=
      (tagBody_iff _).mpr ⟨a, p, b, c, rfl, ha, hb, hp⟩
    simpa [List.append_assoc] using h

theorem is_patch_iff (m : MsgTree) (toplevel_message_id : String) :
    is_patch m toplevel_message_id = true ↔
      stripAngles (pyStrip (get_header m "in-reply-to").toList) = toplevel_message_id.toList ∧
      isReply (get_header m "subject").toList = false ∧
      hasPatchTag (get_header m "subject").toList = true := by
  simp only [is_patch]
  by_cases h1 : stripAngles (pyStrip (get_header m "in-reply-to").toList)
      = toplevel_message_id.toList
  · by_cases h2 : isReply (get_header m "subject").toList = true
    · simp [h1, h2]
    · have h2' : isReply (get_header m "subject").toList = false := by
        cases h : isReply (get_header m "subject").toList
        · rfl
        · exact absurd h h2
      simp [h1, h2']
  · simp [h1]

/- ### Helper lemmas: thread walker -/

theorem walkL_none_length (p : MsgTree) (l : List MsgTree) :
    (walkL none p l).length = treeSizeL l := by
  induction p, l using walkL.induct none with
  | case1 => simp [walkL, treeSizeL]
  | case2 p mid irt subj rs rest ih1 ih2 =>
    simp [walkL, treeSizeL, includeIt, ih1, ih2]
    omega

theorem walkL_filter (g : MsgTree → Bool) (l : List MsgTree) :
    ∀ p p', walkL (some fun r _ => g r) p l = (walkL none p' l).filter g := by
  induction l using treeSizeL.induct with
  | case1 => intro p p'; simp [walkL]
  | case2 mid irt subj rs rest ih1 ih2 =>
    intro p p'
    rw [walkL, walkL, List.filter_append, List.filter_append]
    rw [ih1 (.node mid irt subj rs) (.node mid irt subj rs), ih2 p p']
    simp only [includeIt]
    by_cases hg : g (.node mid irt subj rs) = true
    · simp [hg]
    · simp [hg]

theorem walk_replies_filter (tl : MsgTree) (g : MsgTree → Bool) :
    walk_replies tl (some fun r _ => g r) = (walk_replies tl none).filter g := by
  rw [walk_replies, walk_replies, walkL_filter g tl.replies tl tl]

/- ### Helper lemmas: body extractor -/

theorem firstPlain_append (l₁ l₂ : List EMsg) (p : EMsg)
    (h1 : ∀ q ∈ l₁, qualPlain q = false) (h2 : qualPlain p = true) :
    firstPlain (l₁ ++ p :: l₂) = some p := by
  induction l₁ with
  | nil => simp [firstPlain, h2]
  | cons q l ih =>
    rw [List.cons_append, firstPlain]
    simp [h1 q (by simp)]
    exact ih fun r hr => h1 r (by simp [hr])

theorem firstPlain_some {l : List EMsg} {p : EMsg} (h : firstPlain l = some p) :
    p ∈ l ∧ qualPlain p = true := by
  induction l with
  | nil => simp [firstPlain] at h
  | cons q t ih =>
    by_cases hq : qualPlain q = true
    · rw [firstPlain] at h
      simp [hq] at h
      subst h
      exact ⟨by simp, hq⟩
    · rw [firstPlain] at h
      simp [hq] at h
      obtain ⟨hmem, hqp⟩ := ih h
      exact ⟨by simp [hmem], hqp⟩

theorem decodeStep_ok (p : EMsg) (hleaf : p.is_multipart = false) (hok : nodeOK p = true) :
    ∃ s, decodeStep p = .ok s := by
  cases p with
  | multi ct cd parts => simp [EMsg.is_multipart] at hleaf
  | part ct cd cs pl =>
    simp only [nodeOK, Bool.and_eq_true] at hok
    obtain ⟨hpl, hcs⟩ := hok
    obtain ⟨bs, rfl⟩ := Option.isSome_iff_exists.mp hpl
    simp only [knownCharset] at hcs
    obtain ⟨d, hd⟩ := Option.isSome_iff_exists.mp hcs
    exact ⟨d bs, by simp [decodeStep, payloadDecode, hd]⟩

theorem self_mem_walkE (m : EMsg) : m ∈ walkE m := by
  cases m <;> simp [walkE]

theorem head_mem_walkEL (fp : EMsg) (rest : List EMsg) : fp ∈ walkEL (fp :: rest) := by
  cases fp <;> simp [walkEL]

/- ### Helper lemmas: series finder -/

theorem findLoop_ok (lookup : String → Option String) (msgs : List FMsg) :
    ∀ seen : List String, (∀ m ∈ msgs, m.subjectHdr.isSome = true) →
      findLoop lookup seen msgs
        = .ok ((dedupByTid seen (msgs.filter qualifiesMsg)).map
            fun m => (m.threadid, emitSubject lookup m (m.subjectHdr.getD ""))) := by
  induction msgs with
  | nil => intro seen _; simp [findLoop, dedupByTid]
  | cons m rest ih =>
    intro seen hall
    obtain ⟨subj, hsubj⟩ := Option.isSome_iff_exists.mp (hall m (by simp))
    have hrest : ∀ x ∈ rest, x.subjectHdr.isSome = true := fun x hx => hall x (by simp [hx])
    have hq : qualifiesMsg m = qualifies subj := by
      simp [qualifiesMsg, hsubj]
    by_cases hseen : m.threadid ∈ seen
    · by_cases hqm : qualifiesMsg m = true
      · rw [findLoop]
        simp only [hseen, if_true, List.filter_cons, hqm, if_pos]
        rw [dedupByTid]
        simp [hseen, ih seen hrest]
      · rw [findLoop]
        simp only [hseen, if_true, List.filter_cons, hqm]
        simp [ih seen hrest]
    · by_cases hqm : qualifiesMsg m = true
      · have hqs : qualifies subj = true := by rw [← hq]; exact hqm
        rw [findLoop]
        simp only [hseen, if_false, hsubj]
        rw [ih (m.threadid :: seen) hrest]
        simp only [hqs, if_true, List.filter_cons, hqm]
        rw [dedupByTid]
        simp [hseen, hsubj]
      · have hqs : qualifies subj = false := by
          cases h : qualifies subj
          · rfl
          · exact absurd (hq.trans h) hqm
        rw [findLoop]
        simp only [hseen, if_false, hsubj]
        simp only [hqs, List.filter_cons, hqm]
        simp [ih seen hrest]

theorem dedupByTid_nodup (l : List FMsg) :
    ∀ seen : List String,
      ((dedupByTid seen l).map FMsg.threadid).Nodup ∧
        ∀ t ∈ (dedupByTid seen l).map FMsg.threadid, t ∉ seen := by
  induction l with
  | nil => intro seen; simp [dedupByTid]
  | cons m rest ih =>
    intro seen
    by_cases h : m.threadid ∈ seen
    · simpa [dedupByTid, h] using ih seen
    · obtain ⟨ihn, ihs⟩ := ih (m.threadid :: seen)
      constructor
      · rw [dedupByTid]
        simp only [h, if_false, List.map_cons, List.nodup_cons]
        refine ⟨?_, ihn⟩
        intro hmem
        exact (ihs _ hmem) (by simp)
      · intro t ht
        rw [dedupByTid] at ht
        simp only [h, if_false, List.map_cons, List.mem_cons] at ht
        rcases ht with rfl | ht
        · exact h
        · intro hts
          exact (ihs t ht) (by simp [hts])

/- ### Helper lemmas: reply-marker subjects -/

theorem isReply_of_ci (s : List Char) (pre : List Char)
    (hmem : pre = ['r', 'e', ':'] ∨ pre = ['r', ':'] ∨ pre = ['a', 'w', ':'] ∨
      pre = ['f', 'w', 'd', ':'] ∨ pre = ['f', 'w', ':'])
    (hp : List.isPrefixOf pre (s.map Char.toLower) = true) :
    isReply s = true := by
  cases s with
  | nil =>
    exfalso
    rcases hmem with rfl | rfl | rfl | rfl | rfl <;> simp [List.isPrefixOf] at hp
  | cons x t =>
    have hlow : Char.toLower x = 'r' ∨ Char.toLower x = 'a' ∨ Char.toLower x = 'f' := by
      rcases hmem with rfl | rfl | rfl | rfl | rfl <;>
        · simp [List.isPrefixOf] at hp
          simp [hp.1.symm]
    have hxs : pyIsSpace x = false := by
      cases hpx : pyIsSpace x
      · rfl
      · exfalso
        simp only [pyIsSpace, Bool.or_eq_true, decide_eq_true_eq] at hpx
        rcases hpx with ((((rfl | rfl) | rfl) | rfl) | rfl) | rfl <;>
          rcases hlow with h | h | h <;> exact absurd h (by decide)
    have hd : (x :: t).dropWhile pyIsSpace = x :: t := by
      simp [List.dropWhile_cons, hxs]
    rw [isReply]
    simp only [hd]
    rcases hmem with rfl | rfl | rfl | rfl | rfl <;>
      · simp at hp ⊢
        tauto

/- ### Claim theorems -/

/-- C1 counterexample: the claim's iff fails as stated.  The message below
has a matching (normalized) In-Reply-To and a non-reply subject that
CONTAINS a bracketed PATCH tag, yet `is_patch` is false, because the
code's regex `^\s*\[.*?PATCH.*?\]` requires the bracket at the START of
the subject. -/
theorem claim_C1_counterexample :
    (stripAngles (pyStrip
        (get_header (.node "m1" (some " <cover-id> ") (some "Fix leak [PATCH v2]") [])
          "in-reply-to").toList)
      = "cover-id".toList) ∧
    isReply (get_header (.node "m1" (some " <cover-id> ") (some "Fix leak [PATCH v2]") [])
        "subject").toList = false ∧
    containsBracketedPatchTag
        (get_header (.node "m1" (some " <cover-id> ") (some "Fix leak [PATCH v2]") [])
          "subject").toList = true ∧
    is_patch (.node "m1" (some " <cover-id> ") (some "Fix leak [PATCH v2]") []) "cover-id"
      = false := by
  decide

/-- C1 (amended): for a message whose normalized In-Reply-To equals the
cover-letter message id and whose subject does not match the reply-marker
pattern, `is_patch` is true iff the subject starts, after optional
whitespace, with an opening bracket followed (with no intervening
newline) by the marker `PATCH` (case-insensitive) and then a closing
bracket — the anchored-search semantics of the code's regex, rather than
the claim's "contains a bracketed tag" reading. -/
theorem claim_C1 (m : MsgTree) (toplevel_message_id : String)
    (h1 : stripAngles (pyStrip (get_header m "in-reply-to").toList)
      = toplevel_message_id.toList)
    (h2 : isReply (get_header m "subject").toList = false) :
    is_patch m toplevel_message_id = true ↔
      ∃ ws a p b c, (get_header m "subject").toList = ws ++ '[' :: (a ++ p ++ b ++ ']' :: c) ∧
        (∀ x ∈ ws, pyIsSpace x = true) ∧ (∀ x ∈ a, x ≠ '\n') ∧ (∀ x ∈ b, x ≠ '\n') ∧
        p.map Char.toLower = ['p', 'a', 't', 'c', 'h'] := by
  rw [is_patch_iff, hasPatchTag_iff]
  constructor
  · rintro ⟨-, -, h⟩
    exact h
  · intro h
    exact ⟨h1, h2, h⟩

/-- C1 witness: the amended equivalence applied to the claim's own
example, subject `[PATCH v2 3/6] Fix leak` with matching In-Reply-To,
yields `is_patch` true. -/
theorem claim_C1_witness :
    is_patch (.node "m" (some "<cover>") (some "[PATCH v2 3/6] Fix leak") []) "cover"
      = true := by
  refine (claim_C1 (.node "m" (some "<cover>") (some "[PATCH v2 3/6] Fix leak") []) "cover"
      (by decide) (by decide)).mpr ?_
  exact ⟨[], [], ['P', 'A', 'T', 'C', 'H'], " v2 3/6".toList, " Fix leak".toList,
    by decide, by decide, by decide, by decide, by decide⟩

/-- C2: in ALL mode `retrieve_thread` returns as many messages as are
reachable from the top-level messages via replies; in PATCHES_AND_COVER
mode it returns each top-level message followed by exactly those walked
replies (at any depth: the walk never prunes a subtree) that pass
`is_patch` against that top-level message's id. -/
theorem claim_C2 (tls : List MsgTree) :
    (retrieve_thread (.ok (some tls)) true).length = treeSizeL tls ∧
      retrieve_thread (.ok (some tls)) false
        = tls.flatMap fun tl =>
            tl :: (walk_replies tl none).filter fun r => is_patch r tl.messageid := by
  constructor
  · induction tls with
    | nil => simp [retrieve_thread, treeSizeL]
    | cons tl rest ih =>
      cases tl with
      | node mid irt subj rs =>
        simp only [retrieve_thread, List.flatMap_cons, if_true, List.length_append,
          List.length_cons] at ih ⊢
        rw [walk_replies, MsgTree.replies, walkL_none_length, treeSizeL]
        omega
  · simp only [retrieve_thread, Bool.false_eq_true, if_false]
    induction tls with
    | nil => rfl
    | cons tl rest ih =>
      rw [List.flatMap_cons, List.flatMap_cons, ih]
      congr 1
      rw [walk_replies_filter tl fun r => is_patch r tl.messageid]

/-- C3: on a successful run over a stream whose messages carry subject
headers, `do_find_threads` returns exactly one record per thread id — the
first stream message of that thread whose subject contains `PATCH`
(case-insensitively) and does not start with `RE:`/`R:` — in first-seen
order of those qualifying messages; non-qualifying messages never mark
their thread as seen (the result is the filter-then-dedup of the
stream), and the returned thread ids are pairwise distinct. -/
theorem claim_C3 (notmuch_filter : String) (msgs : List FMsg)
    (lookup : String → Option String)
    (hflt : pyStrip notmuch_filter.toList ≠ [])
    (hsubj : ∀ m ∈ msgs, m.subjectHdr.isSome = true) :
    do_find_threads notmuch_filter (.ok msgs) lookup
        = .ok ((dedupByTid [] (msgs.filter qualifiesMsg)).map
            fun m => (m.threadid, emitSubject lookup m (m.subjectHdr.getD ""))) ∧
      ∀ res, do_find_threads notmuch_filter (.ok msgs) lookup = .ok res →
        (res.map Prod.fst).Nodup := by
  have h1 : do_find_threads notmuch_filter (.ok msgs) lookup
      = .ok ((dedupByTid [] (msgs.filter qualifiesMsg)).map
          fun m => (m.threadid, emitSubject lookup m (m.subjectHdr.getD ""))) := by
    rw [do_find_threads]
    simp only [hflt, if_false]
    exact findLoop_ok lookup msgs [] hsubj
  refine ⟨h1, ?_⟩
  intro res hres
  rw [h1] at hres
  have hres' : res = (dedupByTid [] (msgs.filter qualifiesMsg)).map
      fun m => (m.threadid, emitSubject lookup m (m.subjectHdr.getD "")) := by
    cases hres
    rfl
  rw [hres', List.map_map]
  have := (dedupByTid_nodup (msgs.filter qualifiesMsg) []).1
  simpa using this

/-- C3 witness: the claim's example — three matched messages over threads
A and B, where A has `[PATCH 1/2] foo` and B only the reply
`Re: [PATCH 1/2] bar` — yields exactly one record, for A. -/
theorem claim_C3_witness :
    do_find_threads "from:dev"
        (.ok [⟨"A", some "[PATCH 1/2] foo"⟩, ⟨"B", some "Re: [PATCH 1/2] bar"⟩,
          ⟨"B", some "Re: [PATCH 1/2] bar"⟩])
        (fun _ => none)
      = .ok [("A", "[PATCH 1/2] foo")] := by
  have h := (claim_C3 "from:dev"
      [⟨"A", some "[PATCH 1/2] foo"⟩, ⟨"B", some "Re: [PATCH 1/2] bar"⟩,
        ⟨"B", some "Re: [PATCH 1/2] bar"⟩]
      (fun _ => none) (by decide) (by decide)).1
  rw [h]
  rfl

/-- C4 counterexample: body extraction CAN raise.  A non-multipart
message with an absent payload makes `get_payload(decode=True)` return
`None`, so `None.decode(...)` raises `AttributeError`; and a payload
declared with the (unregistered) real-world charset label `unknown-8bit`
raises `LookupError`, since `errors="replace"` only governs undecodable
bytes, not unknown codec names. -/
theorem claim_C4_counterexample :
    get_email_body (.part "text/plain" "" (some "utf-8") none) = .error .attributeError ∧
      get_email_body (.part "text/plain" "" (some "unknown-8bit") (some [104]))
        = .error .lookupError := by
  exact ⟨rfl, rfl⟩

/-- C4 (amended): body extraction never raises PROVIDED the message is
well formed — every leaf part carries a present payload and a registered
charset, containers do not pass the `text/plain` selection test
themselves, and every container has at least one subpart, the first of
which is a leaf.  Under those conditions undecodable bytes only produce
replacement characters and the extraction returns a string. -/
theorem claim_C4 (m : EMsg) (h : wfMime m = true) :
    ∃ s, get_email_body m = .ok s := by
  have hall : ∀ q ∈ walkE m, nodeOK q = true := by
    rw [wfMime, List.all_eq_true] at h
    exact h
  cases m with
  | part ct cd cs pl =>
    simp only [get_email_body]
    exact decodeStep_ok _ rfl (hall _ (self_mem_walkE _))
  | multi ct cd parts =>
    simp only [get_email_body]
    cases hfp : firstPlain (walkE (.multi ct cd parts)) with
    | some p =>
      obtain ⟨hmem, hq⟩ := firstPlain_some hfp
      have hnp := hall p hmem
      have hleaf : p.is_multipart = false := by
        cases p with
        | part ct2 cd2 cs2 pl2 => rfl
        | multi ct2 cd2 parts2 =>
          simp only [nodeOK, Bool.and_eq_true, Bool.not_eq_true'] at hnp
          rw [hnp.1] at hq
          exact absurd hq (by decide)
      exact decodeStep_ok p hleaf hnp
    | none =>
      have hm := hall _ (self_mem_walkE (.multi ct cd parts))
      cases parts with
      | nil =>
        simp [nodeOK] at hm
      | cons fp rest =>
        simp only [nodeOK, Bool.and_eq_true, Bool.not_eq_true'] at hm
        have hfpmem : fp ∈ walkE (.multi ct cd (fp :: rest)) := by
          rw [walkE]
          exact List.mem_cons_of_mem _ (head_mem_walkEL fp rest)
        exact decodeStep_ok fp (by simpa using hm.2) (hall _ hfpmem)

/-- C4 witness: the amended statement applied to a concrete well-formed
single-part message. -/
theorem claim_C4_witness :
    wfMime (.part "text/plain" "" (some "utf-8") (some [104, 105])) = true ∧
      ∃ s, get_email_body (.part "text/plain" "" (some "utf-8") (some [104, 105])) = .ok s := by
  refine ⟨by decide, claim_C4 _ (by decide)⟩

/-- C5: a message whose subject starts, case-insensitively, with one of
the reply markers `re:`, `r:`, `aw:`, `fwd:`, `fw:` (a repeated marker
still starts with its first marker) is never classified as a patch, for
every cover-letter id and regardless of its In-Reply-To header. -/
theorem claim_C5 (m : MsgTree) (any_id : String)
    (h : ∃ pre, (pre = ['r', 'e', ':'] ∨ pre = ['r', ':'] ∨ pre = ['a', 'w', ':'] ∨
        pre = ['f', 'w', 'd', ':'] ∨ pre = ['f', 'w', ':']) ∧
      List.isPrefixOf pre ((get_header m "subject").toList.map Char.toLower) = true) :
    is_patch m any_id = false := by
  obtain ⟨pre, hmem, hp⟩ := h
  have hrep : isReply (get_header m "subject").toList = true := isReply_of_ci _ pre hmem hp
  cases hip : is_patch m any_id
  · rfl
  · have hfalse := ((is_patch_iff m any_id).mp hip).2.1
    rw [hfalse] at hrep
    exact absurd hrep (by decide)

/-- C5 witness: subject `Re: [PATCH 2/3] fix` with a MATCHING In-Reply-To
is still not a patch. -/
theorem claim_C5_witness :
    List.isPrefixOf ['r', 'e', ':']
        ((get_header (.node "m" (some "<cover>") (some "Re: [PATCH 2/3] fix") [])
          "subject").toList.map Char.toLower) = true ∧
      is_patch (.node "m" (some "<cover>") (some "Re: [PATCH 2/3] fix") []) "cover" = false := by
  refine ⟨by decide, claim_C5 _ "cover" ⟨['r', 'e', ':'], by tauto, by decide⟩⟩

/-- C6: for a multipart message, body extraction decodes exactly the
first part of the `walk` that has content type `text/plain` and whose
Content-Disposition does not contain `attachment`. -/
theorem claim_C6 (m : EMsg) (hm : m.is_multipart = true) (l₁ l₂ : List EMsg) (p : EMsg)
    (hw : walkE m = l₁ ++ p :: l₂) (h1 : ∀ q ∈ l₁, qualPlain q = false)
    (h2 : qualPlain p = true) :
    get_email_body m = decodeStep p := by
  cases m with
  | part ct cd cs pl => simp [EMsg.is_multipart] at hm
  | multi ct cd parts =>
    simp only [get_email_body]
    rw [hw, firstPlain_append l₁ l₂ p h1 h2]

/-- C6 witness: a multipart message whose first part is a `text/plain`
ATTACHMENT (payload `SEC`) and whose second part is the plain body
(payload `keep`) extracts the body part's content, not the attachment's. -/
theorem claim_C6_witness :
    get_email_body exMulti = .ok ['k', 'e', 'e', 'p'] := by
  have h := claim_C6 exMulti rfl [exMulti, exAttachment] [] exBodyPart
    (by simp [exMulti, exAttachment, exBodyPart, walkE, walkEL])
    (by decide) (by decide)
  rw [h]
  simp [exBodyPart, decodeStep, payloadDecode, effectiveCharset, codecOf, utf8Replace, utf8Step]

/-- C7: an empty or whitespace-only filter makes `do_find_threads` raise
the usage-error condition (`ValueError`), for EVERY gateway outcome and
thread lookup — in particular also when the gateway itself would fail —
so the validation happens before any gateway access; and that condition
is distinct from the gateway-failure condition (`RuntimeError`). -/
theorem claim_C7 (notmuch_filter : String) (gw : Except Unit (List FMsg))
    (lookup : String → Option String) (h : pyStrip notmuch_filter.toList = []) :
    do_find_threads notmuch_filter gw lookup = .error .valueError ∧
      FindErr.valueError ≠ FindErr.runtimeError := by
  constructor
  · simp only [do_find_threads, h]
    rfl
  · decide

/-- C7 witness: a whitespace-only filter with an erroring gateway still
yields the usage error, not the gateway error. -/
theorem claim_C7_witness :
    pyStrip "   ".toList = [] ∧
      do_find_threads "   " (.error ()) (fun _ => none) = .error .valueError := by
  refine ⟨by decide, (claim_C7 "   " (.error ()) (fun _ => none) (by decide)).1⟩

/-- C8: a thread id resolving to no thread, and any exception raised
while talking to the gateway during thread retrieval, both yield an empty
message sequence from `retrieve_thread` and an empty rendered string from
`do_show_thread`, for either retrieval mode — never a propagated
exception (the model's `retrieve_thread` is total and returns `[]` on the
error branch). -/
theorem claim_C8 (e : String) (all_messages : Bool) (fmt : MsgTree → String) :
    retrieve_thread (.error e) all_messages = [] ∧
      retrieve_thread (.ok none) all_messages = [] ∧
      do_show_thread (.error e) all_messages fmt = "" ∧
      do_show_thread (.ok none) all_messages fmt = "" := by
  exact ⟨rfl, rfl, rfl, rfl⟩

/-- C9: extracting the body of a single plain-text, non-multipart message
whose (transfer-decoded) payload is the UTF-8 encoding of
`hello\nworld`, with declared charset UTF-8, yields exactly
`hello\nworld`: the internal newline and all characters survive the
decode round-trip unchanged. -/
theorem claim_C9 :
    get_email_body (.part "text/plain" "" (some "utf-8")
        (some [104, 101, 108, 108, 111, 10, 119, 111, 114, 108, 100]))
      = .ok ("hello\nworld".toList) := by
  simp [get_email_body, decodeStep, payloadDecode, effectiveCharset, codecOf,
    utf8Replace, utf8Step]

/-- C10: every message returned by the PATCHES_AND_COVER walk under a
top-level message — at any depth of the reply tree — satisfies the three
classifier conditions with respect to THAT top-level message's id: its
normalized In-Reply-To equals the id, its subject does not match the
reply-marker pattern, and its subject matches the bracketed-PATCH
pattern. -/
theorem claim_C10 (tl m : MsgTree)
    (hm : m ∈ walk_replies tl (some fun reply_message _ => is_patch reply_message tl.messageid)) :
    stripAngles (pyStrip (get_header m "in-reply-to").toList) = tl.messageid.toList ∧
      isReply (get_header m "subject").toList = false ∧
      hasPatchTag (get_header m "subject").toList = true := by
  rw [walk_replies_filter tl fun r => is_patch r tl.messageid] at hm
  exact (is_patch_iff m tl.messageid).mp (List.mem_filter.mp hm).2

/-- C10 witness: `exR2` sits at depth TWO — below the non-patch review
reply `exR1` — and is still returned by the filtered walk, satisfying all
three classifier conditions against the cover's id. -/
theorem claim_C10_witness :
    exR2 ∈ walk_replies exCover
        (some fun reply_message _ => is_patch reply_message exCover.messageid) ∧
      stripAngles (pyStrip (get_header exR2 "in-reply-to").toList)
        = exCover.messageid.toList ∧
      isReply (get_header exR2 "subject").toList = false ∧
      hasPatchTag (get_header exR2 "subject").toList = true := by
  have h1 : is_patch exR1 exCover.messageid = false := by decide
  have h2 : is_patch exR2 exCover.messageid = true := by decide
  have hw : walk_replies exCover
      (some fun reply_message _ => is_patch reply_message exCover.messageid) = [exR2] := by
    rw [walk_replies]
    show walkL _ _ exCover.replies = _
    rw [show exCover.replies = [exR1] from rfl]
    rw [show exR1 = MsgTree.node "r1" (some "cover") (some "Some review comments") [exR2]
      from rfl]
    rw [walkL]
    rw [show exR2 = MsgTree.node "r2" (some "<cover>") (some "[PATCH 2/2] fix") [] from rfl]
    rw [walkL, walkL, walkL]
    simp only [includeIt]
    rw [show (MsgTree.node "r1" (some "cover") (some "Some review comments")
        [MsgTree.node "r2" (some "<cover>") (some "[PATCH 2/2] fix") []]) = exR1 from rfl]
    rw [show (MsgTree.node "r2" (some "<cover>") (some "[PATCH 2/2] fix") []) = exR2 from rfl]
    simp [h1, h2, walkL]
  have hmem : exR2 ∈ walk_replies exCover
      (some fun reply_message _ => is_patch reply_message exCover.messageid) := by
    rw [hw]
    simp
  exact ⟨hmem, claim_C10 exCover exR2 hmem⟩
